import Mathlib

/-!
# Verification of the falling-block game engine (`tetris_gui.py`)

Shallow embedding of the game engine from `src/tetris_gui.py`: shape
catalog, board, validity predicate, movement, rotation, gravity tick,
hard drop, locking, line clearing and scoring.  GUI drawing, Tk widget
setup and timer scheduling (`draw_board`, `schedule_tick`, canvas code)
are presentation glue and are not modelled; every state-mutating
operation of the engine is.

Python integers are modelled by `Int` (Python `%` on a positive modulus
agrees with `Int.emod`; `//` on non-negative operands agrees with
`Int.ediv`).  The board is a `List` of rows, each row a `List` of
`Option String` cells (`None` = empty, a color string = occupied),
exactly as in the source.  Python list index assignment
(`self.board[y][x] = color`) can raise `IndexError` and wraps negative
indices; this is modelled faithfully by `Option`-returning writers
(`none` = uncaught `IndexError`).  Randomness (`random.choice`) is
modelled by an oracle stream `rng : Nat → Tetromino` consumed at an
index, carried in the game state.
-/

namespace TetrisGui

/-! ## Board configuration constants (`tetris_gui.py` lines 15-20) -/

def BOARD_WIDTH : Nat := 10

def BOARD_HEIGHT : Nat := 20

def TICK_MS : Int := 600

def SPEEDUP_PER_LINE : Int := 15

def MIN_TICK_MS : Int := 120

/-! ## Shape catalog -/

/-- Python `class Tetromino`: a tetromino with multiple rotation states. -/
structure Tetromino where
  name : String
  rotations : List (List (Int × Int))
  color : String
deriving DecidableEq, Repr

/-- Source `Tetromino.rotation(index)`: `self.rotations[index % len(self.rotations)]`.
Python `%` on a positive modulus is `Int.emod`; every catalog shape has a
non-empty `rotations` list so the modulus is positive at each use. -/
def Tetromino.rotation (t : Tetromino) (index : Int) : List (Int × Int) :=
  t.rotations.getD (index % (t.rotations.length : Int)).toNat []

def tetI : Tetromino :=
  ⟨"I", [[(0, 1), (1, 1), (2, 1), (3, 1)],
         [(2, 0), (2, 1), (2, 2), (2, 3)]], "#00c0f0"⟩

def tetJ : Tetromino :=
  ⟨"J", [[(0, 0), (0, 1), (1, 1), (2, 1)],
         [(1, 0), (2, 0), (1, 1), (1, 2)],
         [(0, 1), (1, 1), (2, 1), (2, 2)],
         [(1, 0), (1, 1), (0, 2), (1, 2)]], "#0000f0"⟩

def tetL : Tetromino :=
  ⟨"L", [[(2, 0), (0, 1), (1, 1), (2, 1)],
         [(1, 0), (1, 1), (1, 2), (2, 2)],
         [(0, 1), (1, 1), (2, 1), (0, 2)],
         [(0, 0), (1, 0), (1, 1), (1, 2)]], "#f0a000"⟩

def tetO : Tetromino :=
  ⟨"O", [[(1, 0), (2, 0), (1, 1), (2, 1)]], "#f0f000"⟩

def tetS : Tetromino :=
  ⟨"S", [[(1, 0), (2, 0), (0, 1), (1, 1)],
         [(1, 0), (1, 1), (2, 1), (2, 2)]], "#00f000"⟩

def tetT : Tetromino :=
  ⟨"T", [[(1, 0), (0, 1), (1, 1), (2, 1)],
         [(1, 0), (1, 1), (2, 1), (1, 2)],
         [(0, 1), (1, 1), (2, 1), (1, 2)],
         [(1, 0), (0, 1), (1, 1), (1, 2)]], "#a000f0"⟩

def tetZ : Tetromino :=
  ⟨"Z", [[(0, 0), (1, 0), (1, 1), (2, 1)],
         [(2, 0), (1, 1), (2, 1), (1, 2)]], "#f00000"⟩

/-- Catalog `SHAPES`: the catalog, in the dict's insertion order (the order
`list(SHAPES.values())` produces for `random.choice`). -/
def SHAPES : List Tetromino := [tetI, tetJ, tetL, tetO, tetS, tetT, tetZ]

/-! ## Board -/

/-- Board `self.board`: rows of cells, `None` = empty, a color string = occupied. -/
abbrev Board := List (List (Option String))

def emptyRow : List (Option String) := List.replicate BOARD_WIDTH none

/-- The board built in `__init__` / `restart`: `BOARD_HEIGHT` rows of
`BOARD_WIDTH` empty cells. -/
def emptyBoard : Board := List.replicate BOARD_HEIGHT emptyRow

/-- Read `self.board[y][x]`.  Used only after the bounds guards of
`is_valid_position` ensured `0 ≤ y < height` and `0 ≤ x < width`. -/
def boardCell (b : Board) (x y : Int) : Option String :=
  (b.getD y.toNat []).getD x.toNat none

/-- Python single-row index assignment `row[x] = c`: `IndexError`
(modelled as `none`) when `x ≥ len(row)` or `x < -len(row)`; a negative
index in range wraps to `len(row) + x`. -/
def pySetRow (row : List (Option String)) (x : Int) (c : String) :
    Option (List (Option String)) :=
  if x ≥ (row.length : Int) ∨ x < -(row.length : Int) then none
  else some (row.set (if x < 0 then ((row.length : Int) + x).toNat else x.toNat) (some c))

/-- Python assignment `board[y][x] = c`: first index the row (with the
same `IndexError`/negative-wrap semantics), then assign within it. -/
def pySetCell (b : Board) (y x : Int) (c : String) : Option Board :=
  if y ≥ (b.length : Int) ∨ y < -(b.length : Int) then none
  else
    let i := if y < 0 then ((b.length : Int) + y).toNat else y.toNat
    match pySetRow (b.getD i []) x c with
    | none => none
    | some r => some (b.set i r)

/-- The write loop of `lock_piece`:
`for x, y in blocks: if y < 0: continue; board[y][x] = color`.
`none` models an uncaught `IndexError` aborting the loop. -/
def lockCells (b : Board) (blocks : List (Int × Int)) (c : String) : Option Board :=
  match blocks with
  | [] => some b
  | (x, y) :: rest =>
    if y < 0 then lockCells b rest c
    else
      match pySetCell b y x c with
      | none => none
      | some b2 => lockCells b2 rest c

/-- Source `clear_lines()`: filter out rows whose every cell is occupied,
report `BOARD_HEIGHT - len(new_board)` (a Python `int`), and insert
fresh empty rows at index 0 until the row count is back to
`BOARD_HEIGHT`. -/
def clearLines (b : Board) : Int × Board :=
  let newBoard := b.filter (fun row => !(row.all (fun cell => cell.isSome)))
  let cleared : Int := (BOARD_HEIGHT : Int) - (newBoard.length : Int)
  (cleared, List.replicate (BOARD_HEIGHT - newBoard.length) emptyRow ++ newBoard)

/-! ## Game state -/

/-- The mutable state of `TetrisApp` (engine fields only; widgets and
the Tk root are presentation glue).  `status` is the text of
`status_var` (`""`, `"Paused"`, or the game-over message), the only
place the source distinguishes a paused game from an ended one.
`rng`/`rngIdx` model `random.choice`: an oracle stream of shapes and
the position of the next draw. -/
structure GameState where
  score : Int
  lines_cleared : Int
  tick_ms : Int
  board : Board
  current_shape : Option Tetromino
  current_rotation : Int
  current_position : Int × Int
  next_shape : Tetromino
  game_running : Bool
  status : String
  rng : Nat → Tetromino
  rngIdx : Nat

/-- Source `random_shape()`: draw the next shape from the oracle stream. -/
def randomShape (s : GameState) : Tetromino × GameState :=
  (s.rng s.rngIdx, { s with rngIdx := s.rngIdx + 1 })

/-- Source `get_blocks(position, rotation)`: absolute cells of the given shape,
`[]` when `current_shape is None`. -/
def getBlocks (shape : Option Tetromino) (position : Int × Int) (rotation : Int) :
    List (Int × Int) :=
  match shape with
  | none => []
  | some t => (t.rotation rotation).map (fun p => (position.1 + p.1, position.2 + p.2))

/-- Body of the validity loop of `is_valid_position` for one cell:
reject when `x < 0 or x >= BOARD_WIDTH or y >= BOARD_HEIGHT`, then when
`y >= 0 and self.board[y][x] is not None`. -/
def cellOk (b : Board) (p : Int × Int) : Bool :=
  if p.1 < 0 ∨ p.1 ≥ (BOARD_WIDTH : Int) ∨ p.2 ≥ (BOARD_HEIGHT : Int) then false
  else if 0 ≤ p.2 ∧ (boardCell b p.1 p.2).isSome then false
  else true

/-- Source `is_valid_position(position, rotation)`. -/
def isValidPosition (b : Board) (shape : Option Tetromino) (position : Int × Int)
    (rotation : Int) : Bool :=
  (getBlocks shape position rotation).all (cellOk b)

/-- Source `end_game()`: stop the game and show the game-over message (the
`<r>` key binding it installs is input glue). -/
def endGame (s : GameState) : GameState :=
  { s with game_running := false, status := "Game over. Press R to restart." }

/-- Source `toggle_pause()`: unconditionally negate `game_running`, then set
the status text (the `schedule_tick` call is timer glue). -/
def togglePause (s : GameState) : GameState :=
  let s1 := { s with game_running := !s.game_running }
  if s1.game_running then { s1 with status := "" } else { s1 with status := "Paused" }

/-- Source `spawn_new_piece()`: promote `next_shape`, draw a fresh next shape,
reset rotation, center at `(BOARD_WIDTH // 2 - 2, 0)`, and end the game
if the fresh position is invalid. -/
def spawnNewPiece (s : GameState) : GameState :=
  let drawn := randomShape s
  let s2 := { drawn.2 with
    current_shape := some s.next_shape
    next_shape := drawn.1
    current_rotation := 0
    current_position := ((BOARD_WIDTH : Int) / 2 - 2, 0) }
  if !(isValidPosition s2.board s2.current_shape s2.current_position s2.current_rotation)
  then endGame s2 else s2

/-- Source `try_move(dx, dy)`. -/
def tryMove (s : GameState) (dx dy : Int) : GameState :=
  if !s.game_running then s
  else
    let newPos := (s.current_position.1 + dx, s.current_position.2 + dy)
    if isValidPosition s.board s.current_shape newPos s.current_rotation then
      { s with current_position := newPos }
    else s

/-- Source `try_rotate()`. -/
def tryRotate (s : GameState) : GameState :=
  if !s.game_running then s
  else
    match s.current_shape with
    | none => s
    | some t =>
      let newRot := (s.current_rotation + 1) % (t.rotations.length : Int)
      if isValidPosition s.board (some t) s.current_position newRot then
        { s with current_rotation := newRot }
      else s

/-- Source `lock_piece()`: write the active cells into the board (`none` models
an uncaught `IndexError`), clear full lines, update score / lines /
speed when `lines` is truthy (non-zero), then spawn. -/
def lockPiece (s : GameState) : Option GameState :=
  match s.current_shape with
  | none => some s
  | some t =>
    match lockCells s.board (getBlocks s.current_shape s.current_position s.current_rotation)
        t.color with
    | none => none
    | some b2 =>
      let cleared := clearLines b2
      let lines := cleared.1
      let s1 := { s with board := cleared.2 }
      let s2 :=
        if lines ≠ 0 then
          { s1 with
            lines_cleared := s1.lines_cleared + lines
            score := s1.score + lines ^ 2 * 100
            tick_ms :=
              max MIN_TICK_MS (TICK_MS - (s1.lines_cleared + lines) * SPEEDUP_PER_LINE) }
        else s1
      some (spawnNewPiece s2)

/-- Source `tick(manual)`: gravity step, or lock when the step is invalid.  The
`manual` flag only controls timer rescheduling and the redraw, which are
presentation glue, so it does not appear here. -/
def tick (s : GameState) : Option GameState :=
  if !s.game_running then some s
  else
    match s.current_shape with
    | none => some s
    | some _ =>
      let newPos := (s.current_position.1, s.current_position.2 + 1)
      if isValidPosition s.board s.current_shape newPos s.current_rotation then
        some { s with current_position := newPos }
      else lockPiece s

/-- The `while` loop of `hard_drop`, with explicit fuel: step down while
the next position is valid.  (In Python the loop runs unfueled; with an
active catalog piece it terminates within `dropFuel` steps, which is
proved below.) -/
def dropLoop (b : Board) (shape : Option Tetromino) (rot : Int) :
    Nat → Int × Int → Int × Int
  | 0, p => p
  | n + 1, p =>
    if isValidPosition b shape (p.1, p.2 + 1) rot then
      dropLoop b shape rot n (p.1, p.2 + 1)
    else p

/-- Number of successful downward steps the `while` loop of `hard_drop`
performs, with the same fuel discipline as `dropLoop`. -/
def dropLoopCount (b : Board) (shape : Option Tetromino) (rot : Int) :
    Nat → Int × Int → Nat
  | 0, _ => 0
  | n + 1, p =>
    if isValidPosition b shape (p.1, p.2 + 1) rot then
      dropLoopCount b shape rot n (p.1, p.2 + 1) + 1
    else 0

/-- Fuel sufficient for the drop loop of any piece that has a cell with
non-negative vertical offset (every catalog piece does). -/
def dropFuel (s : GameState) : Nat :=
  ((BOARD_HEIGHT : Int) - s.current_position.2).toNat + 1

/-- Source `hard_drop()`: run the drop loop, then lock once. -/
def hardDrop (s : GameState) : Option GameState :=
  if !s.game_running then some s
  else
    let p := dropLoop s.board s.current_shape s.current_rotation (dropFuel s)
      s.current_position
    lockPiece { s with current_position := p }

/-- Number of gravity steps `hard_drop` takes before locking. -/
def dropSteps (s : GameState) : Nat :=
  dropLoopCount s.board s.current_shape s.current_rotation (dropFuel s) s.current_position

/-- Iterated `tick`, propagating an uncaught exception. -/
def tickIter : Nat → GameState → Option GameState
  | 0, s => some s
  | n + 1, s => (tick s).bind (tickIter n)

/-! ## Concrete states used by witnesses and counterexamples -/

/-- A plain running state: empty board, active `O` piece freshly spawned
at `(3, 0)`, a deterministic shape oracle. -/
def baseState : GameState where
  score := 0
  lines_cleared := 0
  tick_ms := TICK_MS
  board := emptyBoard
  current_shape := some tetO
  current_rotation := 0
  current_position := (3, 0)
  next_shape := tetI
  game_running := true
  status := ""
  rng := fun _ => tetI
  rngIdx := 0

/-! ## Helper lemmas -/

/-- The rotation lookup lands inside the `rotations` list, so it returns
one of the listed states. -/
lemma rotation_mem (t : Tetromino) (hne : t.rotations ≠ []) (i : Int) :
    t.rotation i ∈ t.rotations := by
  have hn : 0 < t.rotations.length := List.length_pos.mpr hne
  have h0 : 0 ≤ i % (t.rotations.length : Int) :=
    Int.emod_nonneg i (by exact_mod_cast hn.ne')
  have h1 : i % (t.rotations.length : Int) < (t.rotations.length : Int) :=
    Int.emod_lt_of_pos i (by exact_mod_cast hn)
  have hk : (i % (t.rotations.length : Int)).toNat < t.rotations.length := by omega
  rw [Tetromino.rotation, List.getD_eq_getElem _ _ hk]
  exact List.getElem_mem hk

/-- Per-cell content of the validity loop body. -/
lemma cellOk_iff (b : Board) (p : Int × Int) :
    cellOk b p = true ↔
      0 ≤ p.1 ∧ p.1 < (BOARD_WIDTH : Int) ∧ p.2 < (BOARD_HEIGHT : Int) ∧
        (0 ≤ p.2 → boardCell b p.1 p.2 = none) := by
  unfold cellOk
  split_ifs with h1 h2
  · simp only [false_iff]
    rintro ⟨hx0, hx1, hy, -⟩
    rcases h1 with h | h | h <;> omega
  · simp only [false_iff]
    rintro ⟨-, -, -, hcell⟩
    rw [hcell h2.1] at h2
    simp at h2
  · push_neg at h1
    simp only [true_iff]
    refine ⟨by omega, by omega, by omega, fun hy => ?_⟩
    by_contra hc
    exact h2 ⟨hy, Option.isSome_iff_ne_none.mpr hc⟩

/-- Predicate `is_valid_position` unfolded to its per-cell meaning. -/
lemma isValid_iff (b : Board) (shape : Option Tetromino) (pos : Int × Int) (rot : Int) :
    isValidPosition b shape pos rot = true ↔
      ∀ p ∈ getBlocks shape pos rot,
        0 ≤ p.1 ∧ p.1 < (BOARD_WIDTH : Int) ∧ p.2 < (BOARD_HEIGHT : Int) ∧
          (0 ≤ p.2 → boardCell b p.1 p.2 = none) := by
  rw [isValidPosition, List.all_eq_true]
  exact forall₂_congr fun p _ => cellOk_iff b p

/-! ## C2 — `toggle_pause` in the ended state -/

/-- C2 counterexample: the claim "invoking `toggle_pause` while the
engine is in the Ended state has no effect" is false.  `end_game` leaves
`game_running = false` (the only representation of Ended), and
`toggle_pause` then flips it back to `true`, resuming the game. -/
theorem toggle_pause_after_end_resumes :
    (endGame baseState).game_running = false ∧
    (togglePause (endGame baseState)).game_running = true ∧
    (endGame baseState).status = "Game over. Press R to restart." ∧
    (togglePause (endGame baseState)).status = "" := by
  refine ⟨rfl, rfl, rfl, rfl⟩

/-- C2 (amended): `toggle_pause` unconditionally negates the running
flag and rewrites the status text; it never distinguishes Paused from
Ended, since both are represented by `game_running = false`.  Invoked
after `end_game` it therefore sets the game running again.  Only the
running flag and the status text change; board, piece, score, lines and
speed are untouched. -/
theorem toggle_pause_always_negates_running (s : GameState) :
    (togglePause s).game_running = !s.game_running ∧
    (togglePause s).status = (if s.game_running then "Paused" else "") ∧
    (togglePause s).board = s.board ∧
    (togglePause s).score = s.score ∧
    (togglePause s).lines_cleared = s.lines_cleared ∧
    (togglePause s).tick_ms = s.tick_ms ∧
    (togglePause s).current_shape = s.current_shape ∧
    (togglePause s).current_position = s.current_position ∧
    (togglePause s).current_rotation = s.current_rotation ∧
    (togglePause s).next_shape = s.next_shape := by
  cases h : s.game_running <;> simp [togglePause, h]

/-! ## C9 — rotation lookup and the tetromino invariant -/

/-- Every rotation state of a catalog shape has exactly 4 cells. -/
lemma rotation_length_catalog (t : Tetromino) (ht : t ∈ SHAPES) (i : Int) :
    (t.rotation i).length = 4 := by
  have h4 : ∀ r ∈ t.rotations, r.length = 4 := by fin_cases ht <;> decide
  have hne : t.rotations ≠ [] := by fin_cases ht <;> decide
  exact h4 _ (rotation_mem t hne i)

/-- C9: for every catalog shape and every integer rotation index the
lookup yields exactly 4 offset cells; the lookup agrees with plain
indexing on in-range indices and is periodic with period equal to the
shape's rotation-state count (i.e. the index is taken modulo that
count); the single-rotation square piece `O` returns its one state for
every index. -/
theorem rotation_mod_and_four_cells :
    (∀ t ∈ SHAPES, ∀ i : Int, (t.rotation i).length = 4) ∧
    (∀ t : Tetromino, ∀ i : Int, 0 ≤ i → i < (t.rotations.length : Int) →
      t.rotation i = t.rotations.getD i.toNat []) ∧
    (∀ t : Tetromino, ∀ i : Int,
      t.rotation (i + (t.rotations.length : Int)) = t.rotation i) ∧
    (∀ i : Int, tetO.rotation i = [(1, 0), (2, 0), (1, 1), (2, 1)]) := by
  refine ⟨fun t ht i => rotation_length_catalog t ht i, ?_, ?_, ?_⟩
  · intro t i h0 h1
    rw [Tetromino.rotation, Int.emod_eq_of_lt h0 h1]
  · intro t i
    have h : i + (t.rotations.length : Int) = i + (t.rotations.length : Int) * 1 := by ring
    rw [Tetromino.rotation, h, Int.add_mul_emod_self_left, Tetromino.rotation]
  · intro i
    rw [Tetromino.rotation]
    norm_num [tetO, Int.emod_one]

/-- C9 witness: the lookup at concrete shapes and indices. -/
theorem rotation_mod_and_four_cells_witness :
    tetJ ∈ SHAPES ∧ (tetJ.rotation 5).length = 4 ∧
    (0 : Int) ≤ 2 ∧ (2 : Int) < (tetJ.rotations.length : Int) ∧
    tetJ.rotation 2 = tetJ.rotations.getD 2 [] ∧
    tetO.rotation (-7) = [(1, 0), (2, 0), (1, 1), (2, 1)] :=
  ⟨by decide, rotation_mod_and_four_cells.1 tetJ (by decide) 5, by decide, by decide,
    rotation_mod_and_four_cells.2.1 tetJ 2 (by decide) (by decide),
    rotation_mod_and_four_cells.2.2.2 (-7)⟩

/-! ## C3 — the validity predicate -/

/-- C3: `is_valid_position(position, rotation)` is true iff every
resulting cell has horizontal coordinate in `[0, width)`, vertical
coordinate `< height` (negative rows are vertically valid), and, for
cells with row `≥ 0`, an empty board cell at that location. -/
theorem is_valid_position_iff (b : Board) (t : Tetromino) (pos : Int × Int) (rot : Int) :
    isValidPosition b (some t) pos rot = true ↔
      ∀ p ∈ getBlocks (some t) pos rot,
        0 ≤ p.1 ∧ p.1 < (BOARD_WIDTH : Int) ∧ p.2 < (BOARD_HEIGHT : Int) ∧
          (0 ≤ p.2 → boardCell b p.1 p.2 = none) :=
  isValid_iff b (some t) pos rot

/-- C3 witness: the characterization instantiated at a concrete board,
piece, position and rotation. -/
theorem is_valid_position_iff_witness :
    isValidPosition emptyBoard (some tetO) (3, 0) 0 = true ↔
      ∀ p ∈ getBlocks (some tetO) (3, 0) 0,
        0 ≤ p.1 ∧ p.1 < (BOARD_WIDTH : Int) ∧ p.2 < (BOARD_HEIGHT : Int) ∧
          (0 ≤ p.2 → boardCell emptyBoard p.1 p.2 = none) :=
  is_valid_position_iff emptyBoard tetO (3, 0) 0

/-! ## C4 — line clearing -/

/-- The full rows and the non-full rows of a board partition its length. -/
lemma length_filter_all_add (b : Board) :
    (b.filter (fun row => row.all (fun cell => cell.isSome))).length +
      (b.filter (fun row => !(row.all (fun cell => cell.isSome)))).length = b.length := by
  induction b with
  | nil => rfl
  | cons r b ih =>
    by_cases h : r.all (fun cell => cell.isSome) <;> simp [List.filter_cons, h] <;> omega

/-- C4: `clear_lines` removes exactly the rows in which every cell is
occupied, keeps the remaining rows in their original relative order
(shifted toward the bottom by the refill), prepends fresh empty rows so
the board again has exactly `BOARD_HEIGHT` rows, and returns the number
of rows removed. -/
theorem clear_lines_spec (b : Board) (hb : b.length = BOARD_HEIGHT) :
    clearLines b =
      (((b.filter (fun row => row.all (fun cell => cell.isSome))).length : Int),
        List.replicate (b.filter (fun row => row.all (fun cell => cell.isSome))).length
          emptyRow ++ b.filter (fun row => !(row.all (fun cell => cell.isSome)))) ∧
    (clearLines b).2.length = BOARD_HEIGHT := by
  have hsplit := length_filter_all_add b
  constructor
  · simp only [clearLines]
    rw [Prod.mk.injEq]
    constructor
    · omega
    · rw [show BOARD_HEIGHT - (b.filter (fun row => !(row.all (fun cell => cell.isSome)))).length
          = (b.filter (fun row => row.all (fun cell => cell.isSome))).length from by omega]
  · simp only [clearLines, List.length_append, List.length_replicate]
    omega

/-- A board whose bottom row is completely occupied. -/
def c4Board : Board :=
  List.replicate 19 emptyRow ++ [List.replicate BOARD_WIDTH (some "#00c0f0")]

/-- C4 witness: the clearing characterization evaluated on a board with
one full bottom row. -/
theorem clear_lines_spec_witness :
    c4Board.length = BOARD_HEIGHT ∧
    (clearLines c4Board =
      (((c4Board.filter (fun row => row.all (fun cell => cell.isSome))).length : Int),
        List.replicate (c4Board.filter (fun row => row.all (fun cell => cell.isSome))).length
          emptyRow ++ c4Board.filter (fun row => !(row.all (fun cell => cell.isSome)))) ∧
      (clearLines c4Board).2.length = BOARD_HEIGHT) :=
  ⟨by decide, clear_lines_spec c4Board (by decide)⟩

/-! ## C8 — spawning -/

/-- C8: spawning promotes the previous next piece at rotation 0 with
bounding origin `(width/2 - 2, 0) = (3, 0)`, draws a fresh next shape
from the oracle, never writes a board cell, and ends the game exactly
when the fresh position is invalid. -/
theorem spawn_new_piece_spec (s : GameState) :
    (spawnNewPiece s).current_shape = some s.next_shape ∧
    (spawnNewPiece s).current_rotation = 0 ∧
    (spawnNewPiece s).current_position = ((BOARD_WIDTH : Int) / 2 - 2, 0) ∧
    ((BOARD_WIDTH : Int) / 2 - 2 = 3) ∧
    (spawnNewPiece s).next_shape = s.rng s.rngIdx ∧
    (spawnNewPiece s).board = s.board ∧
    (isValidPosition s.board (some s.next_shape) ((BOARD_WIDTH : Int) / 2 - 2, 0) 0 = false →
      (spawnNewPiece s).game_running = false) ∧
    (isValidPosition s.board (some s.next_shape) ((BOARD_WIDTH : Int) / 2 - 2, 0) 0 = true →
      (spawnNewPiece s).game_running = s.game_running) := by
  by_cases h : isValidPosition s.board (some s.next_shape) ((BOARD_WIDTH : Int) / 2 - 2, 0) 0
    = true
  · refine ⟨?_, ?_, ?_, by decide, ?_, ?_, ?_, ?_⟩ <;>
      simp [spawnNewPiece, randomShape, endGame, h]
  · rw [Bool.not_eq_true] at h
    refine ⟨?_, ?_, ?_, by decide, ?_, ?_, ?_, ?_⟩ <;>
      simp [spawnNewPiece, randomShape, endGame, h]

/-- A board whose top two rows are completely occupied, so any spawn
collides. -/
def topFullBoard : Board :=
  [List.replicate BOARD_WIDTH (some "#00c0f0"), List.replicate BOARD_WIDTH (some "#00c0f0")]
    ++ List.replicate 18 emptyRow

/-- C8 witness: on a board with full top rows the spawn position is
invalid and the spawn ends the game. -/
theorem spawn_new_piece_spec_witness :
    isValidPosition topFullBoard (some tetO) ((BOARD_WIDTH : Int) / 2 - 2, 0) 0 = false ∧
    (spawnNewPiece { baseState with board := topFullBoard }).game_running = false :=
  ⟨by decide,
    (spawn_new_piece_spec { baseState with board := topFullBoard }).2.2.2.2.2.2.1 (by decide)⟩

/-! ## C1 — the lock write loop -/

/-- A board whose cell `(x, y) = (4, 0)` is occupied. -/
def occBoard : Board := emptyBoard.set 0 (emptyRow.set 4 (some "#00c0f0"))

/-- C1 counterexample: locking into an in-bounds, already-occupied cell
raises no error; the cell is silently overwritten with the new color. -/
theorem lock_occupied_inbounds_cell_no_error :
    (0 : Int) ≤ 4 ∧ (4 : Int) < (BOARD_WIDTH : Int) ∧
    (boardCell occBoard 4 0).isSome = true ∧
    lockCells occBoard [(4, 0)] "#f00000" =
      some (emptyBoard.set 0 (emptyRow.set 4 (some "#f00000"))) :=
  ⟨by decide, by decide, by decide, by decide⟩

/-- Writing one in-range cell (Python index semantics, negative column
wrapping included). -/
lemma pySetCell_inrange (b : Board) (x y : Int) (c : String)
    (hh : b.length = BOARD_HEIGHT) (hw : ∀ r ∈ b, r.length = BOARD_WIDTH)
    (hy0 : 0 ≤ y) (hyH : y < (BOARD_HEIGHT : Int))
    (hx : -(BOARD_WIDTH : Int) ≤ x) (hxW : x < (BOARD_WIDTH : Int)) :
    pySetCell b y x c =
      some (b.set y.toNat ((b.getD y.toNat []).set
        (if x < 0 then ((BOARD_WIDTH : Int) + x).toNat else x.toNat) (some c))) := by
  have hiy : y.toNat < b.length := by omega
  have hrow : ((b.getD y.toNat []).length : Int) = (BOARD_WIDTH : Int) := by
    rw [List.getD_eq_getElem _ _ hiy]
    exact_mod_cast hw _ (List.getElem_mem hiy)
  unfold pySetCell pySetRow
  rw [if_neg (by rw [hh]; omega)]
  rw [if_neg (not_lt.mpr hy0)]
  dsimp only
  rw [hrow]
  rw [if_neg (by omega)]

/-- The single-cell write loop reduces to `pySetCell` when the row is
non-negative. -/
lemma lockCells_single (b : Board) (x y : Int) (c : String) (hy : 0 ≤ y) :
    lockCells b [(x, y)] c =
      match pySetCell b y x c with
      | none => none
      | some b2 => some b2 := by
  cases hpc : pySetCell b y x c <;> simp [lockCells, not_lt.mpr hy, hpc]

/-- C1 (amended): for every well-formed board, single-cell lock writes
behave as follows.  A cell with row `< 0` is silently skipped.  For a
cell with row `≥ 0`, an error (`IndexError`) is raised iff the row is
`≥ height` or the column is `≥ width` or `< -width`; an in-range cell is
always written without error — an already-occupied cell is silently
overwritten with the new color, and a negative in-range column silently
wraps to column `width + x`. -/
theorem lock_piece_cell_write_semantics (b : Board) (x y : Int) (c : String)
    (hh : b.length = BOARD_HEIGHT) (hw : ∀ r ∈ b, r.length = BOARD_WIDTH) :
    (y < 0 → lockCells b [(x, y)] c = some b) ∧
    (0 ≤ y →
      (lockCells b [(x, y)] c = none ↔
        (BOARD_HEIGHT : Int) ≤ y ∨ (BOARD_WIDTH : Int) ≤ x ∨ x < -(BOARD_WIDTH : Int))) ∧
    (0 ≤ y → y < (BOARD_HEIGHT : Int) → 0 ≤ x → x < (BOARD_WIDTH : Int) →
      ∃ b2, lockCells b [(x, y)] c = some b2 ∧ boardCell b2 x y = some c) ∧
    (0 ≤ y → y < (BOARD_HEIGHT : Int) → -(BOARD_WIDTH : Int) ≤ x → x < 0 →
      ∃ b2, lockCells b [(x, y)] c = some b2 ∧
        boardCell b2 ((BOARD_WIDTH : Int) + x) y = some c) := by
  have hcell : ∀ (i : Nat), i < BOARD_WIDTH → 0 ≤ y → y < (BOARD_HEIGHT : Int) →
      boardCell (b.set y.toNat ((b.getD y.toNat []).set i (some c))) (i : Int) y = some c := by
    intro i hi hy0 hyH
    have hiy : y.toNat < b.length := by omega
    have hrow : (b.getD y.toNat []).length = BOARD_WIDTH := by
      rw [List.getD_eq_getElem _ _ hiy]
      exact hw _ (List.getElem_mem hiy)
    have hiy2 : y.toNat < (b.set y.toNat ((b.getD y.toNat []).set i (some c))).length := by
      rw [List.length_set]; exact hiy
    unfold boardCell
    rw [List.getD_eq_getElem _ _ hiy2, List.getElem_set_self]
    rw [show ((i : Int)).toNat = i from by omega]
    have hi2 : i < ((b.getD y.toNat []).set i (some c)).length := by
      rw [List.length_set, hrow]; omega
    rw [List.getD_eq_getElem _ _ hi2, List.getElem_set_self]
  refine ⟨fun hy => by simp [lockCells, hy], fun hy => ?_, fun hy0 hyH hx0 hxW => ?_,
    fun hy0 hyH hxl hxn => ?_⟩
  · rw [lockCells_single b x y c hy]
    by_cases hyH : (BOARD_HEIGHT : Int) ≤ y
    · have : pySetCell b y x c = none := by
        unfold pySetCell
        rw [if_pos (by rw [hh]; omega)]
      rw [this]
      simp only [true_iff]
      left; omega
    · push_neg at hyH
      by_cases hxbad : (BOARD_WIDTH : Int) ≤ x ∨ x < -(BOARD_WIDTH : Int)
      · have : pySetCell b y x c = none := by
          have hiy : y.toNat < b.length := by omega
          have hrow : ((b.getD y.toNat []).length : Int) = (BOARD_WIDTH : Int) := by
            rw [List.getD_eq_getElem _ _ hiy]
            exact_mod_cast hw _ (List.getElem_mem hiy)
          unfold pySetCell pySetRow
          rw [if_neg (by rw [hh]; omega)]
          rw [if_neg (not_lt.mpr hy)]
          dsimp only
          rw [hrow]
          rw [if_pos (by omega)]
        rw [this]
        simp only [true_iff]
        right; omega
      · push_neg at hxbad
        rw [pySetCell_inrange b x y c hh hw hy hyH (by omega) (by omega)]
        constructor
        · intro h
          simp at h
        · rintro (h | h | h) <;> omega
  · rw [lockCells_single b x y c hy0,
      pySetCell_inrange b x y c hh hw hy0 hyH (by omega) (by omega)]
    rw [if_neg (not_lt.mpr hx0)]
    refine ⟨_, rfl, ?_⟩
    have := hcell x.toNat (by omega) hy0 hyH
    rwa [show ((x.toNat : Int)) = x by omega] at this
  · rw [lockCells_single b x y c hy0,
      pySetCell_inrange b x y c hh hw hy0 hyH hxl (by omega)]
    rw [if_pos hxn]
    refine ⟨_, rfl, ?_⟩
    have := hcell ((BOARD_WIDTH : Int) + x).toNat (by omega) hy0 hyH
    rwa [show ((((BOARD_WIDTH : Int) + x).toNat : Int)) = (BOARD_WIDTH : Int) + x by omega]
      at this

/-- C1 witness: concrete instances of the amended write semantics —
a skipped negative row, an error at an out-of-range column, and a
silent overwrite of an occupied in-bounds cell. -/
theorem lock_piece_cell_write_semantics_witness :
    occBoard.length = BOARD_HEIGHT ∧ (∀ r ∈ occBoard, r.length = BOARD_WIDTH) ∧
    lockCells occBoard [(4, -1)] "#f00000" = some occBoard ∧
    (lockCells occBoard [(12, 0)] "#f00000" = none ↔
      (BOARD_HEIGHT : Int) ≤ 0 ∨ (BOARD_WIDTH : Int) ≤ 12 ∨ (12 : Int) < -(BOARD_WIDTH : Int)) ∧
    (∃ b2, lockCells occBoard [(4, 0)] "#f00000" = some b2 ∧
      boardCell b2 4 0 = some "#f00000") :=
  ⟨by decide, by decide,
    (lock_piece_cell_write_semantics occBoard 4 (-1) "#f00000" (by decide) (by decide)).1
      (by decide),
    (lock_piece_cell_write_semantics occBoard 12 0 "#f00000" (by decide) (by decide)).2.1
      (by decide),
    (lock_piece_cell_write_semantics occBoard 4 0 "#f00000" (by decide) (by decide)).2.2.1
      (by decide) (by decide) (by decide) (by decide)⟩

/-! ## Engine lemmas shared by the lock/score/speed claims -/

lemma spawn_score (s : GameState) : (spawnNewPiece s).score = s.score := by
  unfold spawnNewPiece randomShape endGame
  dsimp only
  split <;> rfl

lemma spawn_lines (s : GameState) : (spawnNewPiece s).lines_cleared = s.lines_cleared := by
  unfold spawnNewPiece randomShape endGame
  dsimp only
  split <;> rfl

lemma spawn_tick_ms (s : GameState) : (spawnNewPiece s).tick_ms = s.tick_ms := by
  unfold spawnNewPiece randomShape endGame
  dsimp only
  split <;> rfl

lemma spawn_board (s : GameState) : (spawnNewPiece s).board = s.board := by
  unfold spawnNewPiece randomShape endGame
  dsimp only
  split <;> rfl

/-- When the board write succeeds, `lock_piece` is the written board,
cleared and scored, followed by a spawn. -/
lemma lockPiece_eq (s : GameState) (t : Tetromino) (b2 : Board)
    (hs : s.current_shape = some t)
    (hl : lockCells s.board (getBlocks s.current_shape s.current_position s.current_rotation)
      t.color = some b2) :
    lockPiece s = some (spawnNewPiece
      (if (clearLines b2).1 ≠ 0 then
        { s with
          board := (clearLines b2).2
          lines_cleared := s.lines_cleared + (clearLines b2).1
          score := s.score + (clearLines b2).1 ^ 2 * 100
          tick_ms := max MIN_TICK_MS
            (TICK_MS - (s.lines_cleared + (clearLines b2).1) * SPEEDUP_PER_LINE) }
      else { s with board := (clearLines b2).2 })) := by
  rw [hs] at hl
  unfold lockPiece
  rw [hs]
  dsimp only
  rw [hl]

/-! ## C5 — scoring on lock -/

/-- C5: a lock whose board write succeeds and clears `N` lines adds
exactly `N` to `lines_cleared` and `N² × 100` to `score`; a lock
clearing 0 lines changes neither, and clearing 1, 2, 3, 4 lines yields
score deltas 100, 400, 900, 1600. -/
theorem lock_piece_scoring (s : GameState) (t : Tetromino) (b2 : Board)
    (hs : s.current_shape = some t)
    (hl : lockCells s.board (getBlocks s.current_shape s.current_position s.current_rotation)
      t.color = some b2) :
    ∃ s', lockPiece s = some s' ∧
      s'.lines_cleared = s.lines_cleared + (clearLines b2).1 ∧
      s'.score = s.score + (clearLines b2).1 ^ 2 * 100 ∧
      ((clearLines b2).1 = 0 → s'.score = s.score ∧ s'.lines_cleared = s.lines_cleared) ∧
      ((clearLines b2).1 = 1 → s'.score = s.score + 100) ∧
      ((clearLines b2).1 = 2 → s'.score = s.score + 400) ∧
      ((clearLines b2).1 = 3 → s'.score = s.score + 900) ∧
      ((clearLines b2).1 = 4 → s'.score = s.score + 1600) := by
  have heq := lockPiece_eq s t b2 hs hl
  by_cases h0 : (clearLines b2).1 = 0
  · rw [if_neg (by simp [h0])] at heq
    refine ⟨_, heq, ?_, ?_, fun _ => ⟨?_, ?_⟩, ?_, ?_, ?_, ?_⟩
    · simp [spawn_lines, h0]
    · simp [spawn_score, h0]
    · simp [spawn_score]
    · simp [spawn_lines]
    · intro h1; exact absurd h1 (by omega)
    · intro h1; exact absurd h1 (by omega)
    · intro h1; exact absurd h1 (by omega)
    · intro h1; exact absurd h1 (by omega)
  · rw [if_pos h0] at heq
    refine ⟨_, heq, by simp [spawn_lines], by simp [spawn_score], fun h => absurd h h0,
      ?_, ?_, ?_, ?_⟩ <;> intro h <;> simp [spawn_score, h]

/-- The board `lock_piece` produces from `baseState` (an `O` piece at
`(3, 0)` on an empty board): cells `(4, 0), (5, 0), (4, 1), (5, 1)`
colored; no full row. -/
def c5Locked : Board :=
  let r := (emptyRow.set 4 (some "#f0f000")).set 5 (some "#f0f000")
  (emptyBoard.set 0 r).set 1 r

/-- C5 witness: locking the freshly spawned `O` piece of `baseState`
clears 0 lines and changes neither score nor lines. -/
theorem lock_piece_scoring_witness :
    baseState.current_shape = some tetO ∧
    lockCells baseState.board
      (getBlocks baseState.current_shape baseState.current_position baseState.current_rotation)
      tetO.color = some c5Locked ∧
    (∃ s', lockPiece baseState = some s' ∧
      s'.lines_cleared = baseState.lines_cleared + (clearLines c5Locked).1 ∧
      s'.score = baseState.score + (clearLines c5Locked).1 ^ 2 * 100 ∧
      ((clearLines c5Locked).1 = 0 →
        s'.score = baseState.score ∧ s'.lines_cleared = baseState.lines_cleared) ∧
      ((clearLines c5Locked).1 = 1 → s'.score = baseState.score + 100) ∧
      ((clearLines c5Locked).1 = 2 → s'.score = baseState.score + 400) ∧
      ((clearLines c5Locked).1 = 3 → s'.score = baseState.score + 900) ∧
      ((clearLines c5Locked).1 = 4 → s'.score = baseState.score + 1600)) :=
  ⟨rfl, by decide, lock_piece_scoring baseState tetO c5Locked rfl (by decide)⟩

/-! ## C6 — tick interval -/

/-- The interval formula of `lock_piece` line 238:
`max(MIN_TICK_MS, TICK_MS - lines_cleared * SPEEDUP_PER_LINE)` as a
function of the cumulative lines-cleared counter. -/
def tickInterval (l : Int) : Int :=
  max MIN_TICK_MS (TICK_MS - l * SPEEDUP_PER_LINE)

/-- C6: after any lock whose write succeeds and which clears a non-zero
number of lines, the tick interval equals
`max(min_interval, base_interval - lines_cleared * speedup_per_line)`
at the updated cumulative counter; that formula is monotonically
non-increasing in the counter and never drops below the minimum. -/
theorem tick_interval_spec :
    (∀ (s : GameState) (t : Tetromino) (b2 : Board),
      s.current_shape = some t →
      lockCells s.board (getBlocks s.current_shape s.current_position s.current_rotation)
        t.color = some b2 →
      (clearLines b2).1 ≠ 0 →
      ∃ s', lockPiece s = some s' ∧
        s'.lines_cleared = s.lines_cleared + (clearLines b2).1 ∧
        s'.tick_ms = tickInterval s'.lines_cleared) ∧
    (∀ l1 l2 : Int, l1 ≤ l2 → tickInterval l2 ≤ tickInterval l1) ∧
    (∀ l : Int, MIN_TICK_MS ≤ tickInterval l) := by
  refine ⟨?_, ?_, fun l => le_max_left _ _⟩
  · intro s t b2 hs hl h0
    have heq := lockPiece_eq s t b2 hs hl
    rw [if_pos h0] at heq
    exact ⟨_, heq, by simp [spawn_lines], by simp [spawn_tick_ms, spawn_lines, tickInterval]⟩
  · intro l1 l2 h
    apply max_le_max le_rfl
    have : l1 * SPEEDUP_PER_LINE ≤ l2 * SPEEDUP_PER_LINE :=
      mul_le_mul_of_nonneg_right h (by norm_num [SPEEDUP_PER_LINE])
    omega

/-- A board whose bottom row is full except columns 4 and 5. -/
def c6Board : Board :=
  List.replicate 19 emptyRow ++
    [((List.replicate BOARD_WIDTH (some "#00c0f0")).set 4 none).set 5 none]

/-- The state about to drop an `O` piece into that gap. -/
def c6State : GameState := { baseState with board := c6Board, current_position := (3, 18) }

/-- The board after the write of that lock: row 19 is full. -/
def c6Locked : Board :=
  List.replicate 18 emptyRow ++
    [(emptyRow.set 4 (some "#f0f000")).set 5 (some "#f0f000"),
      ((List.replicate BOARD_WIDTH (some "#00c0f0")).set 4 (some "#f0f000")).set 5
        (some "#f0f000")]

/-- C6 witness: a lock clearing one line recomputes the interval from
the updated counter; concrete monotonicity and floor instances. -/
theorem tick_interval_spec_witness :
    c6State.current_shape = some tetO ∧
    lockCells c6State.board
      (getBlocks c6State.current_shape c6State.current_position c6State.current_rotation)
      tetO.color = some c6Locked ∧
    (clearLines c6Locked).1 ≠ 0 ∧
    (∃ s', lockPiece c6State = some s' ∧
      s'.lines_cleared = c6State.lines_cleared + (clearLines c6Locked).1 ∧
      s'.tick_ms = tickInterval s'.lines_cleared) ∧
    (1 : Int) ≤ 3 ∧ tickInterval 3 ≤ tickInterval 1 ∧
    MIN_TICK_MS ≤ tickInterval 100 :=
  ⟨rfl, by decide, by decide,
    tick_interval_spec.1 c6State tetO c6Locked rfl (by decide) (by decide),
    by decide, tick_interval_spec.2.1 1 3 (by decide), tick_interval_spec.2.2 100⟩

/-! ## C10 — the running-piece validity invariant -/

/-- Well-formedness the engine maintains for the board: exactly
`BOARD_HEIGHT` rows of `BOARD_WIDTH` cells. -/
def boardWF (b : Board) : Prop :=
  b.length = BOARD_HEIGHT ∧ ∀ r ∈ b, r.length = BOARD_WIDTH

/-- In a running state the active piece (when present) sits at a valid
position.  (With no active piece `is_valid_position` is vacuously true.) -/
def pieceValid (s : GameState) : Prop :=
  s.game_running = true →
    isValidPosition s.board s.current_shape s.current_position s.current_rotation = true

/-- The engine invariant: well-formed board and valid active piece. -/
def EngineInv (s : GameState) : Prop := boardWF s.board ∧ pieceValid s

lemma pySetRow_length (row r : List (Option String)) (x : Int) (c : String)
    (h : pySetRow row x c = some r) : r.length = row.length := by
  unfold pySetRow at h
  split_ifs at h
  · injection h with h
    subst h
    exact List.length_set ..
  · injection h with h
    subst h
    exact List.length_set ..

/-- The row-replacement step of `pySetCell` keeps the board well-formed
for any in-range row index. -/
lemma set_match_wf (b b2 : Board) (i : Nat) (x : Int) (c : String) (hb : boardWF b)
    (hi : i < b.length)
    (h : (match pySetRow (b.getD i []) x c with
          | none => none
          | some r => some (b.set i r)) = some b2) : boardWF b2 := by
  rcases hr : pySetRow (b.getD i []) x c with _ | r
  · rw [hr] at h
    simp at h
  · rw [hr] at h
    injection h with h
    subst h
    refine ⟨by rw [List.length_set]; exact hb.1, ?_⟩
    intro r' hr'
    rcases List.mem_or_eq_of_mem_set hr' with hmem | rfl
    · exact hb.2 _ hmem
    · rw [pySetRow_length _ _ _ _ hr, List.getD_eq_getElem _ _ hi]
      exact hb.2 _ (List.getElem_mem hi)

lemma pySetCell_wf (b b2 : Board) (x y : Int) (c : String)
    (hb : boardWF b) (h : pySetCell b y x c = some b2) : boardWF b2 := by
  unfold pySetCell at h
  split_ifs at h with h1 h2
  · exact set_match_wf b b2 _ x c hb (by push_neg at h1; omega) h
  · exact set_match_wf b b2 _ x c hb (by push_neg at h1; omega) h

/-- Writing only cells that are in bounds (whenever their row is
non-negative) never raises and keeps the board well-formed. -/
lemma lockCells_some_of_bounds (c : String) :
    ∀ (blocks : List (Int × Int)) (b : Board), boardWF b →
      (∀ p ∈ blocks, 0 ≤ p.2 →
        0 ≤ p.1 ∧ p.1 < (BOARD_WIDTH : Int) ∧ p.2 < (BOARD_HEIGHT : Int)) →
      ∃ b2, lockCells b blocks c = some b2 ∧ boardWF b2 := by
  intro blocks
  induction blocks with
  | nil => exact fun b hb _ => ⟨b, rfl, hb⟩
  | cons p rest ih =>
    intro b hb hblocks
    obtain ⟨x, y⟩ := p
    by_cases hy : y < 0
    · obtain ⟨b2, hrest, hb2⟩ := ih b hb (fun q hq => hblocks q (List.mem_cons_of_mem _ hq))
      exact ⟨b2, by simp [lockCells, hy, hrest], hb2⟩
    · push_neg at hy
      obtain ⟨hx0, hxW, hyH⟩ := hblocks (x, y) (List.mem_cons_self _ _) hy
      have hset := pySetCell_inrange b x y c hb.1 hb.2 hy hyH (by omega) hxW
      have hwf2 := pySetCell_wf b _ x y c hb hset
      obtain ⟨b2, hrest, hb2⟩ :=
        ih _ hwf2 (fun q hq => hblocks q (List.mem_cons_of_mem _ hq))
      refine ⟨b2, ?_, hb2⟩
      show (if y < 0 then lockCells b rest c
        else match pySetCell b y x c with
          | none => none
          | some b3 => lockCells b3 rest c) = some b2
      rw [if_neg (not_lt.mpr hy), hset]
      exact hrest

/-- The board `clear_lines` leaves behind is well-formed. -/
lemma clearLines_wf (b : Board) (hb : boardWF b) : boardWF (clearLines b).2 := by
  have hle := List.length_filter_le (fun row => !(row.all (fun cell => cell.isSome))) b
  have hlen := hb.1
  constructor
  · simp only [clearLines, List.length_append, List.length_replicate]
    omega
  · intro r hr
    simp only [clearLines] at hr
    rcases List.mem_append.mp hr with hrep | hfil
    · rw [List.eq_of_mem_replicate hrep]
      simp [emptyRow]
    · exact hb.2 _ (List.mem_of_mem_filter hfil)

/-- Spawning always re-establishes the valid-piece half of the
invariant: either the fresh position is valid, or the game ends. -/
lemma pieceValid_spawn (s : GameState) : pieceValid (spawnNewPiece s) := by
  unfold pieceValid spawnNewPiece randomShape endGame
  dsimp only
  split_ifs with h
  · intro hcontra
    simp at hcontra
  · intro _
    simpa using h

lemma inv_tryMove (s : GameState) (dx dy : Int) (h : EngineInv s) :
    EngineInv (tryMove s dx dy) := by
  by_cases h1 : s.game_running = true
  · by_cases h2 : isValidPosition s.board s.current_shape
        (s.current_position.1 + dx, s.current_position.2 + dy) s.current_rotation = true
    · have : tryMove s dx dy =
          { s with current_position :=
            (s.current_position.1 + dx, s.current_position.2 + dy) } := by
        simp [tryMove, h1, h2]
      rw [this]
      exact ⟨h.1, fun _ => h2⟩
    · have : tryMove s dx dy = s := by simp [tryMove, h1, h2]
      rw [this]
      exact h
  · have : tryMove s dx dy = s := by
      cases hb : s.game_running with
      | true => exact absurd hb h1
      | false => simp [tryMove, hb]
    rw [this]
    exact h

lemma inv_tryRotate (s : GameState) (h : EngineInv s) : EngineInv (tryRotate s) := by
  by_cases h1 : s.game_running = true
  · cases hsh : s.current_shape with
    | none =>
      have : tryRotate s = s := by simp [tryRotate, h1, hsh]
      rw [this]
      exact h
    | some t =>
      by_cases h2 : isValidPosition s.board (some t) s.current_position
          ((s.current_rotation + 1) % (t.rotations.length : Int)) = true
      · have : tryRotate s =
            { s with current_rotation :=
              (s.current_rotation + 1) % (t.rotations.length : Int) } := by
          simp [tryRotate, h1, hsh, h2]
        rw [this]
        refine ⟨h.1, fun _ => ?_⟩
        show isValidPosition s.board s.current_shape s.current_position _ = true
        rw [hsh]
        exact h2
      · have : tryRotate s = s := by simp [tryRotate, h1, hsh, h2]
        rw [this]
        exact h
  · have : tryRotate s = s := by
      cases hb : s.game_running with
      | true => exact absurd hb h1
      | false => simp [tryRotate, hb]
    rw [this]
    exact h

lemma inv_lockPiece (s : GameState) (t : Tetromino) (hs : s.current_shape = some t)
    (hb : boardWF s.board)
    (hv : isValidPosition s.board s.current_shape s.current_position s.current_rotation
      = true) :
    ∃ s', lockPiece s = some s' ∧ EngineInv s' := by
  have hblocks : ∀ p ∈ getBlocks s.current_shape s.current_position s.current_rotation,
      0 ≤ p.2 → 0 ≤ p.1 ∧ p.1 < (BOARD_WIDTH : Int) ∧ p.2 < (BOARD_HEIGHT : Int) := by
    intro p hp _
    have hc := (isValid_iff _ _ _ _).mp hv p hp
    exact ⟨hc.1, hc.2.1, hc.2.2.1⟩
  obtain ⟨b2, hl, hb2⟩ := lockCells_some_of_bounds t.color
    (getBlocks s.current_shape s.current_position s.current_rotation) s.board hb hblocks
  have heq := lockPiece_eq s t b2 hs hl
  refine ⟨_, heq, ?_, pieceValid_spawn _⟩
  show boardWF (spawnNewPiece _).board
  rw [spawn_board]
  split_ifs <;> exact clearLines_wf b2 hb2

lemma inv_tick (s : GameState) (h : EngineInv s) :
    ∃ s', tick s = some s' ∧ EngineInv s' := by
  by_cases hrb : s.game_running = true
  · cases hsh : s.current_shape with
    | none => exact ⟨s, by simp [tick, hrb, hsh], h⟩
    | some t =>
      by_cases hv : isValidPosition s.board (some t)
          (s.current_position.1, s.current_position.2 + 1) s.current_rotation = true
      · refine ⟨{ s with current_position :=
            (s.current_position.1, s.current_position.2 + 1) },
          by simp [tick, hrb, hsh, hv], h.1, fun _ => ?_⟩
        show isValidPosition s.board s.current_shape _ s.current_rotation = true
        rw [hsh]
        exact hv
      · obtain ⟨s', hl, hinv⟩ := inv_lockPiece s t hsh h.1 (h.2 hrb)
        refine ⟨s', ?_, hinv⟩
        have ht : tick s = lockPiece s := by simp [tick, hrb, hsh, hv]
        rw [ht]
        exact hl
  · refine ⟨s, ?_, h⟩
    cases hb : s.game_running with
    | true => exact absurd hb hrb
    | false => simp [tick, hb]

/-- C10: in the shallow embedding the invariant "a running state's
active piece occupies a valid position (on a well-formed board)" is
established by `spawn_new_piece` and preserved by `try_move`,
`try_rotate` and the gravity `tick` (which, when it locks, re-spawns
and so re-establishes it; its board writes stay in bounds and raise no
error). -/
theorem engine_invariant_preserved (s : GameState) (dx dy : Int) (h : EngineInv s) :
    EngineInv (spawnNewPiece s) ∧ EngineInv (tryMove s dx dy) ∧ EngineInv (tryRotate s) ∧
    ∃ s', tick s = some s' ∧ EngineInv s' := by
  refine ⟨⟨?_, pieceValid_spawn s⟩, inv_tryMove s dx dy h, inv_tryRotate s h, inv_tick s h⟩
  rw [spawn_board]
  exact h.1

/-- C10 witness: the invariant holds for `baseState` and is preserved by
each operation there. -/
theorem engine_invariant_preserved_witness :
    EngineInv baseState ∧
    (EngineInv (spawnNewPiece baseState) ∧ EngineInv (tryMove baseState 1 0) ∧
      EngineInv (tryRotate baseState) ∧ ∃ s', tick baseState = some s' ∧ EngineInv s') :=
  ⟨by unfold EngineInv boardWF pieceValid; decide,
    engine_invariant_preserved baseState 1 0
      (by unfold EngineInv boardWF pieceValid; decide)⟩

/-! ## C7 — hard drop vs. repeated gravity ticks -/

/-- A piece one of whose cells has a non-negative vertical offset can
only be valid above the floor. -/
lemma valid_y_lt (b : Board) (t : Tetromino) (rot : Int) (p : Int × Int)
    (hoff : ∃ q ∈ t.rotation rot, 0 ≤ q.2)
    (hv : isValidPosition b (some t) p rot = true) : p.2 < (BOARD_HEIGHT : Int) := by
  obtain ⟨q, hq, hq2⟩ := hoff
  have hmem : (p.1 + q.1, p.2 + q.2) ∈ getBlocks (some t) p rot :=
    List.mem_map_of_mem _ hq
  have hc := (isValid_iff b (some t) p rot).mp hv _ hmem
  have := hc.2.2.1
  omega

/-- With enough fuel the drop loop stops at a position whose gravity
successor is invalid (every catalog piece satisfies the offset
hypothesis). -/
lemma dropLoop_exits (b : Board) (t : Tetromino) (rot : Int)
    (hoff : ∃ q ∈ t.rotation rot, 0 ≤ q.2) :
    ∀ (n : Nat) (p : Int × Int), ((BOARD_HEIGHT : Int) - 1 - p.2).toNat < n →
      isValidPosition b (some t)
        ((dropLoop b (some t) rot n p).1, (dropLoop b (some t) rot n p).2 + 1) rot
        = false := by
  intro n
  induction n with
  | zero => exact fun p hp => absurd hp (by omega)
  | succ n ih =>
    intro p hp
    by_cases hv : isValidPosition b (some t) (p.1, p.2 + 1) rot = true
    · have hy : p.2 + 1 < (BOARD_HEIGHT : Int) := valid_y_lt b t rot (p.1, p.2 + 1) hoff hv
      have hstep : dropLoop b (some t) rot (n + 1) p
          = dropLoop b (some t) rot n (p.1, p.2 + 1) := by
        simp [dropLoop, hv]
      rw [hstep]
      exact ih (p.1, p.2 + 1) (by omega)
    · have hstop : dropLoop b (some t) rot (n + 1) p = p := by simp [dropLoop, hv]
      rw [hstop]
      exact Bool.eq_false_iff.mpr hv

/-- One tick at a position whose gravity successor is invalid is exactly
one lock. -/
lemma tickIter_one_lock (s : GameState) (t : Tetromino) (p : Int × Int)
    (hrun : s.game_running = true) (hshape : s.current_shape = some t)
    (hinv : isValidPosition s.board s.current_shape (p.1, p.2 + 1) s.current_rotation
      = false) :
    tickIter 1 { s with current_position := p } =
      lockPiece { s with current_position := p } := by
  have hbind : ∀ x : Option GameState, x.bind (tickIter 0) = x := by
    intro x
    cases x <;> rfl
  have hinv2 : isValidPosition s.board (some t) (p.1, p.2 + 1) s.current_rotation = false := by
    rw [← hshape]
    exact hinv
  show (tick { s with current_position := p }).bind (tickIter 0) = _
  rw [hbind]
  simp [tick, hrun, hshape, hinv2]

/-- The drop loop followed by one lock is iterated ticking: one tick per
successful downward step, then the tick that locks. -/
lemma tickIter_eq_dropLoop (s : GameState) (t : Tetromino)
    (hrun : s.game_running = true) (hshape : s.current_shape = some t) :
    ∀ (n : Nat) (p : Int × Int),
      isValidPosition s.board s.current_shape
        ((dropLoop s.board s.current_shape s.current_rotation n p).1,
          (dropLoop s.board s.current_shape s.current_rotation n p).2 + 1)
        s.current_rotation = false →
      tickIter (dropLoopCount s.board s.current_shape s.current_rotation n p + 1)
        { s with current_position := p } =
      lockPiece { s with
        current_position := (dropLoop s.board s.current_shape s.current_rotation n p) } := by
  intro n
  induction n with
  | zero => exact fun p hstop => tickIter_one_lock s t p hrun hshape hstop
  | succ n ih =>
    intro p hstop
    by_cases hv : isValidPosition s.board s.current_shape (p.1, p.2 + 1) s.current_rotation
      = true
    · have hd : dropLoop s.board s.current_shape s.current_rotation (n + 1) p
          = dropLoop s.board s.current_shape s.current_rotation n (p.1, p.2 + 1) := by
        simp [dropLoop, hv]
      have hc : dropLoopCount s.board s.current_shape s.current_rotation (n + 1) p
          = dropLoopCount s.board s.current_shape s.current_rotation n (p.1, p.2 + 1) + 1 := by
        simp [dropLoopCount, hv]
      rw [hd] at hstop ⊢
      rw [hc]
      have hv2 : isValidPosition s.board (some t) (p.1, p.2 + 1) s.current_rotation
          = true := by
        rw [← hshape]
        exact hv
      have htick : tick { s with current_position := p } =
          some { s with current_position := (p.1, p.2 + 1) } := by
        simp [tick, hrun, hshape, hv2]
      show (tick { s with current_position := p }).bind
        (tickIter (dropLoopCount s.board s.current_shape s.current_rotation n
          (p.1, p.2 + 1) + 1)) = _
      rw [htick]
      show tickIter _ { s with current_position := (p.1, p.2 + 1) } = _
      exact ih (p.1, p.2 + 1) hstop
    · have hd : dropLoop s.board s.current_shape s.current_rotation (n + 1) p = p := by
        simp [dropLoop, hv]
      have hc : dropLoopCount s.board s.current_shape s.current_rotation (n + 1) p = 0 := by
        simp [dropLoopCount, hv]
      rw [hd] at hstop
      rw [hd, hc]
      exact tickIter_one_lock s t p hrun hshape hstop

/-- C7: for a running state with an active piece (whose current rotation
state has a cell with non-negative vertical offset, true of every
catalog rotation state), `hard_drop` produces exactly the state of
iterating the gravity `tick` once per successful downward step plus the
final tick that locks: the piece moves down while the next position is
valid and `lock_piece` runs exactly once at the resting position. -/
theorem hard_drop_equals_repeated_ticks (s : GameState) (t : Tetromino)
    (hrun : s.game_running = true) (hshape : s.current_shape = some t)
    (hoff : ∃ q ∈ t.rotation s.current_rotation, 0 ≤ q.2) :
    hardDrop s = tickIter (dropSteps s + 1) s := by
  have hfuel : ((BOARD_HEIGHT : Int) - 1 - s.current_position.2).toNat < dropFuel s := by
    unfold dropFuel
    omega
  have hstop := dropLoop_exits s.board t s.current_rotation hoff (dropFuel s)
    s.current_position hfuel
  rw [← hshape] at hstop
  have hmain := tickIter_eq_dropLoop s t hrun hshape (dropFuel s) s.current_position hstop
  unfold hardDrop dropSteps
  rw [if_neg (by simp [hrun])]
  exact hmain.symm

/-- C7 witness: the equivalence evaluated on `baseState`. -/
theorem hard_drop_equals_repeated_ticks_witness :
    baseState.game_running = true ∧ baseState.current_shape = some tetO ∧
    (∃ q ∈ tetO.rotation baseState.current_rotation, 0 ≤ q.2) ∧
    hardDrop baseState = tickIter (dropSteps baseState + 1) baseState :=
  ⟨rfl, rfl, by decide, hard_drop_equals_repeated_ticks baseState tetO rfl rfl (by decide)⟩

end TetrisGui
